import Mathlib

/-!
Shallow embedding of the asynchronous wall-analysis pipeline of the store
backend (`apps/mockup`): the `WallAnalysis` data model and its overridden
`save` (models.py), the PATCH update serializer (serializers.py), the upload
view fallback (views.py), the Celery orchestration task and the retention
sweeper (tasks.py), and the depth-estimation module (ml/depth.py).

Python floats are modelled as rationals, nullable columns as `Option`, and
code that can raise as `Except String`.  External library behaviour
(PIL, numpy, ONNX runtime, S3 storage, Celery) is modelled at the contract
level through environment records; the repository's own control flow is
translated statement by statement.
-/

/-- A JSON scalar stored inside the `wall_bounds` JSONField: an integer or
`null`.  (Other JSON scalar kinds behave like `null` here: any arithmetic on
them raises.) -/
inductive JVal
  | jint (n : Int)
  | jnull
deriving DecidableEq

/-- A JSON object such as `{top, bottom, left, right}`, as an association
list (first binding wins in lookups; the dicts the code builds have distinct
keys). -/
abbrev BoundsJson := List (String × JVal)

/-- Python `d.get(key, 0)` on the bounds dict. -/
def dictGet (d : BoundsJson) (k : String) : JVal :=
  match d with
  | [] => .jint 0
  | (k2, v) :: rest => if k2 = k then v else dictGet rest k

/-- Python subtraction on JSON values: two ints subtract, anything else
raises `TypeError`. -/
def pySub : JVal → JVal → Except String Int
  | .jint a, .jint b => .ok (a - b)
  | _, _ => .error "TypeError: unsupported operand type(s) for -"

/-- The `status` column (models.py STATUS_CHOICES). -/
inductive Status
  | pending | processing | completed | manual | failed
deriving DecidableEq

/-- Django truthiness of an optional positive-integer column: `None` and `0`
are falsy. -/
def truthyNat : Option Nat → Bool
  | some (_ + 1) => true
  | _ => false

/-- Truthiness of the `wall_bounds` JSONField: `None` and `{}` are falsy. -/
def truthyBounds : Option BoundsJson → Bool
  | some (_ :: _) => true
  | _ => false

/-- One `WallAnalysis` row (models.py).  `original_image` is the stored image
file: `some d` when a file is present, where `d = some (w, h)` when PIL can
decode it and `none` when `Image.open` raises. -/
structure WallAnalysis where
  original_image : Option (Option (Nat × Nat))
  original_width : Option Nat
  original_height : Option Nat
  status : Status
  error_message : String
  depthMapSet : Bool
  wall_bounds : Option BoundsJson
  confidence : Option ℚ
  pixels_per_inch : Option ℚ
  wall_height_feet : ℚ
  completed_at : Option Nat
deriving DecidableEq

/-- models.py lines 54-61: auto-populate the image dimensions when a file is
present and `original_width` is falsy; `Image.open` failures are swallowed. -/
def autopop (r : WallAnalysis) : WallAnalysis :=
  if r.original_image.isSome && !truthyNat r.original_width then
    match r.original_image with
    | some (some (w, h)) =>
      { r with original_width := some w, original_height := some h }
    | _ => r
  else r

/-- models.py lines 63-68: recompute `pixels_per_inch` from the bounds and the
wall height.  Python's `None - int` raises `TypeError` out of `save`. -/
def pxStep (r : WallAnalysis) : Except String WallAnalysis :=
  if truthyBounds r.wall_bounds && decide (r.wall_height_feet ≠ 0) then
    match pySub (dictGet (r.wall_bounds.getD []) "bottom")
        (dictGet (r.wall_bounds.getD []) "top") with
    | .error e => .error e
    | .ok px =>
      if 0 < px then
        .ok { r with pixels_per_inch := some ((px : ℚ) / (r.wall_height_feet * 12)) }
      else .ok r
  else .ok r

/-- `WallAnalysis.save` (models.py lines 53-70): dimension auto-population,
then the `pixels_per_inch` recomputation, then the actual write.  An `.error`
means the write never happened. -/
def WallAnalysis.save (r : WallAnalysis) : Except String WallAnalysis :=
  pxStep (autopop r)

/-- `pxStep` does not raise on this bounds/height pair.  Every row that a
successful `save` has ever persisted satisfies this of its own columns. -/
def pxSafe (b : Option BoundsJson) (whf : ℚ) : Prop :=
  (truthyBounds b && decide (whf ≠ 0)) = true →
    (pySub (dictGet (b.getD []) "bottom") (dictGet (b.getD []) "top")).toBool = true

/-- The dimension columns agree with the stored image, so a further save's
auto-population is the identity.  Every saved row satisfies this. -/
def dimsSettled (oi : Option (Option (Nat × Nat))) (ow oh : Option Nat) : Prop :=
  match oi with
  | some (some (w, h)) => truthyNat ow = true ∨ (ow = some w ∧ oh = some h)
  | _ => True

/-- The body accepted by `WallAnalysisUpdateSerializer` with `partial=True`:
each field may be absent from `validated_data`; `wall_bounds` may also be JSON
null (the model field is nullable). -/
structure PatchData where
  wall_bounds : Option (Option BoundsJson)
  wall_height_feet : Option ℚ

/-- `WallAnalysisUpdateSerializer.update` (serializers.py lines 49-60)
followed by the model save it triggers. -/
def serializerUpdate (pd : PatchData) (r : WallAnalysis) : Except String WallAnalysis :=
  let r1 := match pd.wall_bounds with
    | some b => { r with wall_bounds := b, status := Status.manual }
    | none => r
  let r2 := match pd.wall_height_feet with
    | some v => { r1 with wall_height_feet := v }
    | none => r1
  r2.save

/-- Environment of one upload request: the decoded dimensions of the stored
image (`none` when PIL cannot decode it), and whether the Celery dispatch
succeeds. -/
structure UploadEnv where
  image : Option (Nat × Nat)
  celeryOk : Bool

def notAvailMsg : String := "ML processing not available. Please select wall manually."

def optJ : Option Nat → JVal
  | some n => .jint n
  | none => .jnull

/-- The full-image default bounds dict written by views.py and tasks.py. -/
def fullDict (w h : Option Nat) : BoundsJson :=
  [("top", .jint 0), ("bottom", optJ h), ("left", .jint 0), ("right", optJ w)]

def bothTruthy (w h : Option Nat) : Bool := truthyNat w && truthyNat h

/-- `UploadWallImageView.post` after request validation (views.py lines
56-78): create the pending record; if the Celery dispatch raises, degrade to
manual with the full-image default when the dimensions are known. -/
def uploadCreate (env : UploadEnv) : Except String WallAnalysis :=
  let r0 : WallAnalysis :=
    { original_image := some env.image, original_width := none, original_height := none,
      status := .pending, error_message := "", depthMapSet := false,
      wall_bounds := none, confidence := none, pixels_per_inch := none,
      wall_height_feet := 8, completed_at := none }
  match r0.save with
  | .error e => .error e
  | .ok r1 =>
    if env.celeryOk then .ok r1
    else
      let r2 := { r1 with
        status := Status.manual
        error_message := notAvailMsg
        wall_bounds :=
          if bothTruthy r1.original_width r1.original_height then
            some (fullDict r1.original_width r1.original_height)
          else r1.wall_bounds }
      r2.save

/-! ## Depth estimation (ml/depth.py) -/

/-- A 2-D array of floats: `val i j` is row `i < h`, column `j < w`. -/
structure Grid where
  h : Nat
  w : Nat
  val : Nat → Nat → ℚ

/-- The in-range entries, flattened. -/
def gridVals (g : Grid) : List ℚ :=
  (List.range g.h).flatMap (fun i => (List.range g.w).map (g.val i))

/-- numpy `.min()` of a nonempty array. -/
def listMin : List ℚ → ℚ
  | [] => 0
  | x :: xs => xs.foldl min x

/-- numpy `.max()` of a nonempty array. -/
def listMax : List ℚ → ℚ
  | [] => 0
  | x :: xs => xs.foldl max x

/-- numpy `astype(np.uint8)` of a value in `[0, 255]`: truncate, wrap mod 256. -/
def toU8 (q : ℚ) : Nat := (Int.toNat ⌊q⌋) % 256

/-- Source coordinate sampled for output index `i` when resampling an axis of
length `src` to length `dst` (pixel-center convention). -/
def srcCoord (i dst src : Nat) : ℚ := ((i : ℚ) + 1 / 2) * src / dst - 1 / 2

def clampIdx (n : Int) (hi : Nat) : Nat := if n < 0 then 0 else min n.toNat hi

/-- Bilinear sample of an `h × w` array at fractional coordinates `(y, x)`. -/
def bilinear (g : Nat → Nat → ℚ) (h w : Nat) (y x : ℚ) : ℚ :=
  let y0 : Int := ⌊y⌋
  let x0 : Int := ⌊x⌋
  let fy := y - y0
  let fx := x - x0
  let i0 := clampIdx y0 (h - 1)
  let i1 := clampIdx (y0 + 1) (h - 1)
  let j0 := clampIdx x0 (w - 1)
  let j1 := clampIdx (x0 + 1) (w - 1)
  (1 - fy) * ((1 - fx) * g i0 j0 + fx * g i0 j1) +
    fy * ((1 - fx) * g i1 j0 + fx * g i1 j1)

/-- PIL `Image.resize(..., BILINEAR)` of an 8-bit (`L` mode) image, modelled
as bilinear interpolation rounded to the nearest integer and clamped to
`[0, 255]` — the 8-bit-image contract the code relies on. -/
def resizeU8 (u : Grid) (W H : Nat) : Grid :=
  { h := H, w := W,
    val := fun i j =>
      ((min 255 (Int.toNat ⌊bilinear u.val u.h u.w
          (srcCoord i H u.h) (srcCoord j W u.w) + 1 / 2⌋) : Nat) : ℚ) }

/-- The `depth` local after min-max normalization (ml/depth.py lines 150-156):
normalize to `[0, 1]` when the raw output has spread, otherwise
`np.zeros_like` — no division by zero. -/
def normGrid (raw : Grid) : Grid :=
  if 0 < listMax (gridVals raw) - listMin (gridVals raw) then
    { raw with val := fun i j =>
        (raw.val i j - listMin (gridVals raw)) /
          (listMax (gridVals raw) - listMin (gridVals raw)) }
  else
    { raw with val := fun _ _ => 0 }

/-- The 8-bit PIL image `(depth * 255).astype(np.uint8)` (line 159). -/
def u8Grid (raw : Grid) : Grid :=
  { normGrid raw with
    val := fun i j => ((toU8 (255 * (normGrid raw).val i j) : Nat) : ℚ) }

/-- `postprocess_depth` (ml/depth.py lines 136-162): min-max normalize the raw
(already squeezed) output — short-circuiting to an all-zero map when max
equals min — quantize through an 8-bit image, resize it to the original
`(W, H)`, and rescale to `[0, 1]`.  numpy `.min()` raises on an empty array. -/
def postprocess_depth (raw : Grid) (original_size : Nat × Nat) : Except String Grid :=
  if raw.h = 0 || raw.w = 0 then .error "zero-size array reduction" else
  .ok { resizeU8 (u8Grid raw) original_size.1 original_size.2 with
        val := fun i j =>
          (resizeU8 (u8Grid raw) original_size.1 original_size.2).val i j / 255 }

/-- Environment of one depth-estimation call: the module-level model cache,
the import/download/load outcomes, and the outcomes of the two stages that
touch the filesystem and the ONNX session. -/
structure DepthEnv where
  cached : Bool
  onnxImport : Bool
  modelExists : Bool
  downloadOk : Bool
  sessionOk : Bool
  preprocessResult : Except String (Nat × Nat)
  inferResult : Except String Grid

/-- `download_model` (ml/depth.py lines 24-50): true when the weights file
exists or the download succeeds. -/
def download_model (env : DepthEnv) : Bool := env.modelExists || env.downloadOk

/-- `get_model` (ml/depth.py lines 53-90): the cached session, else import the
runtime, ensure the weights, construct the session; every failure returns
`None`. -/
def get_model (env : DepthEnv) : Option Unit :=
  if env.cached then some ()
  else if !env.onnxImport then none
  else if !download_model env then none
  else if env.sessionOk then some () else none

/-- The `try` body of `run_depth_estimation`: preprocess, infer, postprocess. -/
def depthTry (env : DepthEnv) : Except String Grid := do
  let osize ← env.preprocessResult
  let raw ← env.inferResult
  postprocess_depth raw osize

/-- `run_depth_estimation` (ml/depth.py lines 165-199): `None` when the model
is unavailable or any stage raises. -/
def run_depth_estimation (env : DepthEnv) : Option Grid :=
  match get_model env with
  | none => none
  | some _ =>
    match depthTry env with
    | .ok m => some m
    | .error _ => none

/-! ## The orchestration task (tasks.py `analyze_wall_image`) -/

/-- A pixel rectangle as the spec's wall-plane detector returns it. -/
structure Rect where
  top : Int
  bottom : Int
  left : Int
  right : Int
deriving DecidableEq

def rectToDict (rc : Rect) : BoundsJson :=
  [("top", .jint rc.top), ("bottom", .jint rc.bottom),
   ("left", .jint rc.left), ("right", .jint rc.right)]

/-- Modelled from the spec: `detect_wall_plane` (ml/wall.py) is missing from
the available sources (spec §9 design note).  Per §4.2 it consumes the depth
map plus the numeric image dimensions and returns `{bounds, confidence}`, with
`bounds` a pixel rectangle or null; we model its outcome as supplied by the
environment.  `depthImage` models the optional `depth_image_path` key of
`wall_data`: absent, or present with a readable (`true`) / unreadable
(`false`) file. -/
inductive DetOutcome
  | raisesErr (msg : String)
  | found (bounds : Option Rect) (conf : ℚ) (depthImage : Option Bool)

/-- The task outcome: the not-found early return, a normal return carrying
the final status, or an exception escaping the task. -/
inductive TaskOutcome
  | notFound
  | finished (s : Status)
  | raised
deriving DecidableEq

/-- Environment of one task invocation: whether the S3 download to the temp
file succeeds, the depth-module environment, the detector outcome, and the
`timezone.now()` timestamp. -/
structure TaskEnv where
  fetchOk : Bool
  depth : DepthEnv
  det : DetOutcome
  now : Nat

def lowConfMsg : String :=
  "Could not detect wall with high confidence. Please select manually."

def mlFailMsg (e : String) : String :=
  "ML processing failed: " ++ e ++ ". Please select wall manually."

/-- The `try` block of `analyze_wall_image` (tasks.py lines 83-139), up to but
not including the final `analysis.save()`.  An error carries the in-memory
record as mutated at the raise point.  A call of the (missing) detector with
null dimensions raises inside it. -/
def tryPipeline (env : TaskEnv) (r1 : WallAnalysis) :
    Except (WallAnalysis × String) WallAnalysis :=
  if env.fetchOk = false then .error (r1, "failed to download image") else
  match run_depth_estimation env.depth with
  | none => .error (r1, "Depth estimation failed")
  | some _ =>
    match r1.original_width, r1.original_height with
    | some _, some _ =>
      match env.det with
      | .raisesErr m => .error (r1, m)
      | .found bounds conf depthImage =>
        if (3 / 10 : ℚ) ≤ conf then
          let r2 := { r1 with
            status := Status.completed
            wall_bounds := bounds.map rectToDict
            confidence := some conf }
          match depthImage with
          | none => .ok { r2 with completed_at := some env.now }
          | some true => .ok { r2 with depthMapSet := true, completed_at := some env.now }
          | some false => .error (r2, "No such file or directory")
        else
          .ok { r1 with
            status := Status.manual
            confidence := some conf
            error_message := lowConfMsg
            wall_bounds := some (fullDict r1.original_width r1.original_height)
            completed_at := some env.now }
    | _, _ => .error (r1, "unsupported operand type(s): NoneType")

/-- The `except` handler of `analyze_wall_image` (tasks.py lines 149-168).
`dbFallback` is what stays persisted if the handler's own save raises (the
exception then escapes the task). -/
def exceptRecord (now : Nat) (a : WallAnalysis) (msg : String) : WallAnalysis :=
  { a with
    status := Status.manual
    error_message := mlFailMsg msg
    wall_bounds :=
      if bothTruthy a.original_width a.original_height then
        some (fullDict a.original_width a.original_height)
      else a.wall_bounds
    completed_at := some now }

def exceptPath (now : Nat) (a : WallAnalysis) (msg : String) (dbFallback : WallAnalysis) :
    Option WallAnalysis × TaskOutcome :=
  match (exceptRecord now a msg).save with
  | .ok p => (some p, .finished .manual)
  | .error _ => (some dbFallback, .raised)

/-- `analyze_wall_image` (tasks.py lines 55-176): look up the row, flip it to
`processing` (persisting only the status column), run the pipeline, persist
the branch result; any exception in the `try` goes through the handler.
Returns the finally-persisted row and how the invocation ended. -/
def analyze_wall_image (env : TaskEnv) (db : Option WallAnalysis) :
    Option WallAnalysis × TaskOutcome :=
  match db with
  | none => (none, .notFound)
  | some r =>
    match WallAnalysis.save { r with status := Status.processing } with
    | .error _ => (some r, .raised)
    | .ok r1 =>
      let dbProc := { r with status := Status.processing }
      match tryPipeline env r1 with
      | .ok r2 =>
        match r2.save with
        | .ok p => (some p, .finished p.status)
        | .error msg => exceptPath env.now r2 msg dbProc
      | .error (a, msg) => exceptPath env.now a msg dbProc

/-! ## The retention sweeper (tasks.py `cleanup_old_wall_analyses`) -/

/-- A `WallAnalysis` row as the sweeper sees it: its id, creation time, its
owned stored file, and whether its `delete()` raises. -/
structure AnalysisRow where
  aid : Nat
  created_at : Int
  fileRef : Nat
  deleteFails : Bool
deriving DecidableEq

/-- A `SavedMockup` row: its id, the referenced analysis, its owned stored
file, and whether the file deletion / row deletion raise. -/
structure MockupRow where
  mid : Nat
  analysisId : Nat
  fileRef : Nat
  fileDeleteFails : Bool
  deleteFails : Bool
deriving DecidableEq

/-- The persistent state the sweeper acts on: rows and stored files. -/
structure Store where
  analyses : List AnalysisRow
  mockups : List MockupRow
  files : List Nat
deriving DecidableEq

/-- One iteration of the SavedMockup loop (tasks.py lines 36-41): delete the
stored file, then the row; an exception leaves the rest of this record's
cleanup undone and moves on. -/
def mockupStep (st : Store) (m : MockupRow) : Store :=
  if m.fileDeleteFails then st
  else
    let st1 := { st with files := st.files.filter (fun f => f ≠ m.fileRef) }
    if m.deleteFails then st1
    else { st1 with mockups := st1.mockups.filter (fun x => x.mid ≠ m.mid) }

/-- One iteration of the WallAnalysis loop (tasks.py lines 44-48):
`analysis.delete()` releases the analysis's own stored file (django-cleanup)
and cascades to the referencing SavedMockup rows, whose files are not
released — the stated reason the mockup loop runs first. -/
def analysisStep (st : Store) (a : AnalysisRow) : Store :=
  if a.deleteFails then st
  else
    { analyses := st.analyses.filter (fun x => x.aid ≠ a.aid),
      mockups := st.mockups.filter (fun x => x.analysisId ≠ a.aid),
      files := st.files.filter (fun f => f ≠ a.fileRef) }

/-- The queryset `WallAnalysis.objects.filter(created_at__lt=cutoff)` with
`cutoff = now - timedelta(hours=hours)`. -/
def oldAnalyses (now hours : Int) (st : Store) : List AnalysisRow :=
  st.analyses.filter (fun a => a.created_at < now - hours)

/-- The queryset `SavedMockup.objects.filter(wall_analysis__in=old_analyses)`. -/
def refMockups (now hours : Int) (st : Store) : List MockupRow :=
  st.mockups.filter (fun m =>
    ((oldAnalyses now hours st).map (fun a => a.aid)).contains m.analysisId)

/-- `cleanup_old_wall_analyses` (tasks.py lines 12-52): count the old rows;
when any exist, first delete each referencing SavedMockup individually (file,
then row), then delete each old analysis; return the count. -/
def cleanup_old_wall_analyses (now hours : Int) (st : Store) : Store × Nat :=
  if (oldAnalyses now hours st).length = 0 then (st, 0)
  else
    ((oldAnalyses now hours st).foldl analysisStep
        ((refMockups now hours st).foldl mockupStep st),
      (oldAnalyses now hours st).length)

/-! ## Concrete sample data used by witnesses and counterexamples -/

/-- A depth environment in which everything succeeds on a 1×1 raw output. -/
def depthEnvOk : DepthEnv :=
  { cached := false, onnxImport := true, modelExists := true, downloadOk := true,
    sessionOk := true, preprocessResult := .ok (2, 2),
    inferResult := .ok ⟨1, 1, fun _ _ => 1 / 2⟩ }

/-- A depth environment whose model weights are missing and cannot be
downloaded. -/
def depthEnvNoModel : DepthEnv :=
  { cached := false, onnxImport := true, modelExists := false, downloadOk := false,
    sessionOk := true, preprocessResult := .ok (2, 2),
    inferResult := .ok ⟨1, 1, fun _ _ => 1 / 2⟩ }

/-- A task environment whose S3 fetch raises. -/
def envFetchFail : TaskEnv :=
  { fetchOk := false, depth := depthEnvOk, det := .raisesErr "never reached", now := 100 }

/-- A task environment in which the fetch succeeds but depth estimation is
unavailable. -/
def envDepthUnavailable : TaskEnv :=
  { fetchOk := true, depth := depthEnvNoModel, det := .raisesErr "never reached", now := 100 }

/-- A completed, fully-persisted analysis row (Scenario A shape). -/
def rCompleted : WallAnalysis :=
  { original_image := some (some (1000, 800)), original_width := some 1000,
    original_height := some 800, status := .completed, error_message := "",
    depthMapSet := false,
    wall_bounds := some (rectToDict ⟨50, 750, 100, 900⟩),
    confidence := some (1 / 2), pixels_per_inch := some (700 / 96),
    wall_height_feet := 8, completed_at := some 5 }

/-- A freshly-uploaded record whose image file PIL cannot decode, so the
dimensions stay null (the upload view's save swallows the decode error). -/
def rUndecodable : WallAnalysis :=
  { original_image := some none, original_width := none, original_height := none,
    status := .pending, error_message := "", depthMapSet := false,
    wall_bounds := none, confidence := none, pixels_per_inch := none,
    wall_height_feet := 8, completed_at := none }

/-- A pending record with known dimensions and no bounds yet. -/
def rPending : WallAnalysis :=
  { original_image := some (some (1000, 800)), original_width := some 1000,
    original_height := some 800, status := .pending, error_message := "",
    depthMapSet := false, wall_bounds := none, confidence := none,
    pixels_per_inch := none, wall_height_feet := 8, completed_at := none }

/-- A PATCH body supplying only `wall_height_feet`. -/
def pdHeightOnly : PatchData := { wall_bounds := none, wall_height_feet := some 9 }

/-- A PATCH body supplying manual bounds and a height. -/
def pdBoundsAndHeight : PatchData :=
  { wall_bounds := some (some [("top", .jint 50), ("bottom", .jint 750),
      ("left", .jint 100), ("right", .jint 900)]),
    wall_height_feet := some 8 }

/-- A sweeper state: one analysis 25 h old with a saved mockup, one 1 h old
(`now = 100`, threshold 24, so the cutoff is 76). -/
def storeW : Store :=
  { analyses := [⟨1, 75, 11, false⟩, ⟨2, 99, 12, false⟩],
    mockups := [⟨7, 1, 21, false, false⟩],
    files := [11, 12, 21] }

/-- An upload whose image decodes to 1000×800 and whose Celery dispatch
succeeds. -/
def uploadEnvOk : UploadEnv := { image := some (1000, 800), celeryOk := true }


/-! ## Lemmas about the model save -/

theorem dictGet_fullDict_bottom (w h : Option Nat) :
    dictGet (fullDict w h) "bottom" = optJ h := by
  simp [fullDict, dictGet]

theorem dictGet_fullDict_top (w h : Option Nat) :
    dictGet (fullDict w h) "top" = .jint 0 := by
  simp [fullDict, dictGet]

theorem dictGet_rectToDict_bottom (rc : Rect) :
    dictGet (rectToDict rc) "bottom" = .jint rc.bottom := by
  simp [rectToDict, dictGet]

theorem dictGet_rectToDict_top (rc : Rect) :
    dictGet (rectToDict rc) "top" = .jint rc.top := by
  simp [rectToDict, dictGet]

/-- `autopop` can only fill in the two dimension columns. -/
theorem autopop_shape (r : WallAnalysis) :
    ∃ ow oh, autopop r = { r with original_width := ow, original_height := oh } := by
  unfold autopop
  split
  · split
    · exact ⟨_, _, rfl⟩
    · exact ⟨r.original_width, r.original_height, rfl⟩
  · exact ⟨r.original_width, r.original_height, rfl⟩

/-- `pxStep` can only change `pixels_per_inch`. -/
theorem pxStep_shape (r r' : WallAnalysis) (h : pxStep r = .ok r') :
    ∃ p, r' = { r with pixels_per_inch := p } := by
  unfold pxStep at h
  by_cases hc : (truthyBounds r.wall_bounds && decide (r.wall_height_feet ≠ 0)) = true
  · rw [if_pos hc] at h
    cases hpy : pySub (dictGet (r.wall_bounds.getD []) "bottom")
        (dictGet (r.wall_bounds.getD []) "top") with
    | error e => simp [hpy] at h
    | ok px =>
      simp only [hpy] at h
      by_cases hpx : 0 < px
      · rw [if_pos hpx] at h; cases h; exact ⟨_, rfl⟩
      · rw [if_neg hpx] at h; cases h; exact ⟨r.pixels_per_inch, rfl⟩
  · rw [if_neg hc] at h; cases h; exact ⟨r.pixels_per_inch, rfl⟩

/-- A successful save can only fill dimensions and `pixels_per_inch`; every
other column of the persisted row is the in-memory value. -/
theorem save_shape (r r' : WallAnalysis) (h : r.save = .ok r') :
    ∃ ow oh p, r' = { r with
      original_width := ow
      original_height := oh
      pixels_per_inch := p } := by
  unfold WallAnalysis.save at h
  obtain ⟨ow, oh, ha⟩ := autopop_shape r
  rw [ha] at h
  obtain ⟨p, hp⟩ := pxStep_shape _ _ h
  exact ⟨ow, oh, p, by rw [hp]⟩

theorem pxStep_isOk (r : WallAnalysis) (h : pxSafe r.wall_bounds r.wall_height_feet) :
    ∃ r', pxStep r = .ok r' := by
  unfold pxStep
  by_cases hc : (truthyBounds r.wall_bounds && decide (r.wall_height_feet ≠ 0)) = true
  · rw [if_pos hc]
    cases hpy : pySub (dictGet (r.wall_bounds.getD []) "bottom")
        (dictGet (r.wall_bounds.getD []) "top") with
    | error e =>
      have := h hc
      rw [hpy] at this
      simp [Except.toBool] at this
    | ok px =>
      simp only [hpy]
      by_cases hpx : 0 < px
      · rw [if_pos hpx]; exact ⟨_, rfl⟩
      · rw [if_neg hpx]; exact ⟨r, rfl⟩
  · rw [if_neg hc]; exact ⟨r, rfl⟩

theorem save_isOk (r : WallAnalysis) (h : pxSafe r.wall_bounds r.wall_height_feet) :
    ∃ r', r.save = .ok r' := by
  unfold WallAnalysis.save
  obtain ⟨ow, oh, ha⟩ := autopop_shape r
  rw [ha]
  exact pxStep_isOk _ h

/-- When the persisted bounds are an integer rectangle with `bottom > top` and
the height is positive, `pxStep` writes exactly the derived scale. -/
theorem pxStep_value (r : WallAnalysis) (d : BoundsJson) (bb tt : Int)
    (hd : r.wall_bounds = some d) (hb : dictGet d "bottom" = .jint bb)
    (ht : dictGet d "top" = .jint tt) (hlt : tt < bb) (hw : 0 < r.wall_height_feet) :
    pxStep r = .ok { r with
      pixels_per_inch := some (((bb - tt : Int) : ℚ) / (r.wall_height_feet * 12)) } := by
  have hd0 : truthyBounds r.wall_bounds = true := by
    rw [hd]
    cases d with
    | nil =>
      simp only [dictGet, JVal.jint.injEq] at hb ht
      omega
    | cons x tl => rfl
  have hcond : (truthyBounds r.wall_bounds && decide (r.wall_height_feet ≠ 0)) = true := by
    simp [hd0, ne_of_gt hw]
  unfold pxStep
  rw [if_pos hcond, hd]
  simp only [Option.getD_some, hb, ht, pySub]
  rw [if_pos (by omega)]

/-- `autopop` lands in a settled state. -/
theorem autopop_settled (r : WallAnalysis) :
    dimsSettled (autopop r).original_image (autopop r).original_width
      (autopop r).original_height := by
  rcases r with ⟨oi, ow, oh, st, em, dm, wb, cf, px, whf, ca⟩
  rcases oi with _ | (_ | ⟨w, h⟩)
  · trivial
  · rcases ow with _ | n
    · trivial
    · cases n <;> trivial
  · rcases ow with _ | n
    · exact Or.inr ⟨rfl, rfl⟩
    · cases n
      · exact Or.inr ⟨rfl, rfl⟩
      · exact Or.inl rfl

/-- On a settled record, `autopop` is the identity. -/
theorem autopop_of_settled (r : WallAnalysis)
    (h : dimsSettled r.original_image r.original_width r.original_height) :
    autopop r = r := by
  rcases r with ⟨oi, ow, oh, st, em, dm, wb, cf, px, whf, ca⟩
  rcases oi with _ | (_ | ⟨w, h⟩)
  · rfl
  · rcases ow with _ | n
    · rfl
    · cases n <;> rfl
  · rcases ow with _ | n
    · rcases h with h | ⟨h1, h2⟩
      · simp [truthyNat] at h
      · cases h1
    · cases n
      · rcases h with h | ⟨h1, h2⟩
        · simp [truthyNat] at h
        · injection h1 with h1
          subst h1
          subst h2
          rfl
      · rfl

/-- A persisted row is settled. -/
theorem save_settled (r r' : WallAnalysis) (h : r.save = .ok r') :
    dimsSettled r'.original_image r'.original_width r'.original_height := by
  unfold WallAnalysis.save at h
  obtain ⟨p, hp⟩ := pxStep_shape _ _ h
  rw [hp]
  exact autopop_settled r

/-- Saving a settled record runs only the `pixels_per_inch` step. -/
theorem save_eq_pxStep (r : WallAnalysis)
    (h : dimsSettled r.original_image r.original_width r.original_height) :
    r.save = pxStep r := by
  unfold WallAnalysis.save
  rw [autopop_of_settled r h]

/-! ## Lemmas about the PATCH update -/

/-- What `WallAnalysisUpdateSerializer.update` does to status, bounds and
confidence: status flips to manual exactly when `wall_bounds` is in the
request body. -/
theorem patch_char (pd : PatchData) (r r' : WallAnalysis)
    (h : serializerUpdate pd r = .ok r') :
    (pd.wall_bounds = none → r'.status = r.status ∧ r'.wall_bounds = r.wall_bounds) ∧
    (∀ b, pd.wall_bounds = some b → r'.status = Status.manual ∧ r'.wall_bounds = b) ∧
    r'.confidence = r.confidence := by
  rcases hpb : pd.wall_bounds with _ | b <;> rcases hph : pd.wall_height_feet with _ | v <;>
    simp only [serializerUpdate, hpb, hph] at h <;>
    obtain ⟨ow, oh, p, he⟩ := save_shape _ _ h <;> subst he <;>
    simp [hpb]

/-- The save triggered by the PATCH recomputes `pixels_per_inch` from the
updated bounds and height. -/
theorem patch_px (pd : PatchData) (r r' : WallAnalysis) (d : BoundsJson) (bb tt : Int)
    (h : serializerUpdate pd r = .ok r')
    (hb : pd.wall_bounds = some (some d))
    (hgb : dictGet d "bottom" = .jint bb) (hgt : dictGet d "top" = .jint tt)
    (hlt : tt < bb) (hw : 0 < pd.wall_height_feet.getD r.wall_height_feet) :
    r'.pixels_per_inch =
      some (((bb - tt : Int) : ℚ) / (pd.wall_height_feet.getD r.wall_height_feet * 12)) := by
  rcases hph : pd.wall_height_feet with _ | v <;>
    simp only [serializerUpdate, hb, hph, Option.getD_some, Option.getD_none] at h hw ⊢
  · unfold WallAnalysis.save at h
    obtain ⟨ow, oh, ha⟩ :=
      autopop_shape { r with wall_bounds := some d, status := Status.manual }
    rw [ha, pxStep_value _ d bb tt rfl hgb hgt hlt (by simpa using hw)] at h
    cases h
    rfl
  · unfold WallAnalysis.save at h
    obtain ⟨ow, oh, ha⟩ :=
      autopop_shape { { r with wall_bounds := some d, status := Status.manual } with
        wall_height_feet := v }
    rw [ha, pxStep_value _ d bb tt rfl hgb hgt hlt (by simpa using hw)] at h
    cases h
    rfl

/-- C5: for every record whose `wall_bounds` has integer `bottom > top` and
whose `wall_height_feet` is positive, saving it writes
`pixels_per_inch = (bottom - top) / (wall_height_feet * 12)` exactly,
recomputed from those two inputs regardless of what was stored before. -/
theorem C5_pixels_per_inch_derived (r : WallAnalysis) (d : BoundsJson) (bb tt : Int)
    (hd : r.wall_bounds = some d) (hb : dictGet d "bottom" = .jint bb)
    (ht : dictGet d "top" = .jint tt) (hlt : tt < bb) (hw : 0 < r.wall_height_feet) :
    ∃ r', r.save = .ok r' ∧
      r'.pixels_per_inch = some (((bb : ℚ) - (tt : ℚ)) / (r.wall_height_feet * 12)) := by
  unfold WallAnalysis.save
  obtain ⟨ow, oh, ha⟩ := autopop_shape r
  rw [ha, pxStep_value _ d bb tt (by simpa using hd) hb ht hlt (by simpa using hw)]
  refine ⟨_, rfl, ?_⟩
  push_cast
  rfl

/-- C5 witness: the Scenario A record (bounds 50..750, 8 ft wall) gets
`pixels_per_inch = 700 / 96`. -/
theorem C5_witness :
    ∃ r', rCompleted.save = .ok r' ∧
      r'.pixels_per_inch = some (((750 : ℚ) - (50 : ℚ)) / (rCompleted.wall_height_feet * 12)) :=
  C5_pixels_per_inch_derived rCompleted (rectToDict ⟨50, 750, 100, 900⟩) 750 50 rfl
    (by decide) (by decide) (by decide) (by decide)

/-! ## Lemmas about the task's exception handler -/

theorem pxSafe_fullDict (w0 h0 : Nat) (whf : ℚ) :
    pxSafe (some (fullDict (some w0) (some h0))) whf := by
  intro _
  simp [Option.getD_some, dictGet_fullDict_bottom, dictGet_fullDict_top, optJ, pySub,
    Except.toBool]

theorem pxSafe_rect (ob : Option Rect) (whf : ℚ) :
    pxSafe (ob.map rectToDict) whf := by
  cases ob with
  | none => intro hc; simp [truthyBounds] at hc
  | some rc =>
    intro _
    simp [Option.map, Option.getD_some, dictGet_rectToDict_bottom, dictGet_rectToDict_top,
      pySub, Except.toBool]

theorem pxSafe_none (whf : ℚ) : pxSafe none whf := by
  intro hc
  simp [truthyBounds] at hc

theorem bothTruthy_some (w h : Option Nat) (hb : bothTruthy w h = true) :
    ∃ w0 h0, w = some w0 ∧ h = some h0 := by
  cases w with
  | none => simp [bothTruthy, truthyNat] at hb
  | some w0 =>
    cases h with
    | none => simp [bothTruthy, truthyNat] at hb
    | some h0 => exact ⟨w0, h0, rfl, rfl⟩

theorem exceptRecord_bounds (now : Nat) (a : WallAnalysis) (msg : String) :
    (exceptRecord now a msg).wall_bounds =
      if bothTruthy a.original_width a.original_height then
        some (fullDict a.original_width a.original_height)
      else a.wall_bounds := rfl

/-- With safe bounds and settled dimensions, the handler's save succeeds. -/
theorem exceptRecord_save_ok (now : Nat) (a : WallAnalysis) (msg : String)
    (hsafe : pxSafe a.wall_bounds a.wall_height_feet)
    (hset : dimsSettled a.original_image a.original_width a.original_height) :
    ∃ p, (exceptRecord now a msg).save = .ok p := by
  rw [save_eq_pxStep (exceptRecord now a msg) hset]
  apply pxStep_isOk
  show pxSafe (exceptRecord now a msg).wall_bounds a.wall_height_feet
  rw [exceptRecord_bounds]
  by_cases hbt : bothTruthy a.original_width a.original_height = true
  · rw [if_pos hbt]
    obtain ⟨w0, h0, hw0, hh0⟩ := bothTruthy_some _ _ hbt
    rw [hw0, hh0]
    exact pxSafe_fullDict _ _ _
  · rw [if_neg hbt]
    exact hsafe

/-- Without any hypotheses the handler either persists a manual row stamped
`now` or leaves the fallback row and lets the exception escape. -/
theorem exceptPath_weak (now : Nat) (a : WallAnalysis) (msg : String)
    (dbF f : WallAnalysis) (o : TaskOutcome)
    (h : exceptPath now a msg dbF = (some f, o)) :
    (f.status = Status.manual ∧ f.confidence = a.confidence ∧ f.completed_at = some now) ∨
      f = dbF := by
  unfold exceptPath at h
  cases hs : (exceptRecord now a msg).save with
  | ok p =>
    rw [hs] at h
    obtain ⟨ow, oh, px, he⟩ := save_shape _ _ hs
    left
    obtain ⟨rfl, rfl⟩ : f = p ∧ o = .finished .manual := by
      constructor <;> injection h with h1 h2 <;> first
        | exact (Option.some.inj h1).symm
        | exact h2.symm
    subst he
    exact ⟨rfl, rfl, rfl⟩
  | error e =>
    rw [hs] at h
    right
    injection h with h1 h2
    exact (Option.some.inj h1).symm

/-- Full characterization of the handler when its save cannot raise: the
exception never escapes, and the persisted row is terminal manual with the
full-image default exactly when the dimensions were known. -/
theorem exceptPath_ok_char (now : Nat) (a : WallAnalysis) (msg : String)
    (dbF f : WallAnalysis) (o : TaskOutcome)
    (hsafe : pxSafe a.wall_bounds a.wall_height_feet)
    (hset : dimsSettled a.original_image a.original_width a.original_height)
    (h : exceptPath now a msg dbF = (some f, o)) :
    o = .finished .manual ∧ f.status = Status.manual ∧ f.error_message = mlFailMsg msg ∧
    f.completed_at = some now ∧ f.wall_height_feet = a.wall_height_feet ∧
    f.original_width = a.original_width ∧ f.original_height = a.original_height ∧
    f.confidence = a.confidence ∧
    ((bothTruthy a.original_width a.original_height = true ∧
        f.wall_bounds = some (fullDict a.original_width a.original_height)) ∨
      (bothTruthy a.original_width a.original_height = false ∧
        f.wall_bounds = a.wall_bounds)) := by
  obtain ⟨p, hp⟩ := exceptRecord_save_ok now a msg hsafe hset
  unfold exceptPath at h
  rw [hp] at h
  obtain ⟨rfl, rfl⟩ : f = p ∧ o = .finished .manual := by
    constructor <;> injection h with h1 h2
    · exact (Option.some.inj h1).symm
    · exact h2.symm
  have hp2 : pxStep (exceptRecord now a msg) = .ok f := by
    rw [← save_eq_pxStep (exceptRecord now a msg) hset]
    exact hp
  obtain ⟨px, he⟩ := pxStep_shape _ _ hp2
  subst he
  refine ⟨rfl, rfl, rfl, rfl, rfl, rfl, rfl, rfl, ?_⟩
  by_cases hbt : bothTruthy a.original_width a.original_height = true
  · left
    refine ⟨hbt, ?_⟩
    show (exceptRecord now a msg).wall_bounds = _
    rw [exceptRecord_bounds, if_pos hbt]
  · right
    refine ⟨by simpa using hbt, ?_⟩
    show (exceptRecord now a msg).wall_bounds = _
    rw [exceptRecord_bounds, if_neg hbt]

/-! ## Characterizing the task pipeline -/

theorem tryPipeline_ok_char (env : TaskEnv) (r1 r2 : WallAnalysis)
    (h : tryPipeline env r1 = .ok r2) :
    r2.original_image = r1.original_image ∧ r2.original_width = r1.original_width ∧
    r2.original_height = r1.original_height ∧ r2.wall_height_feet = r1.wall_height_feet ∧
    r2.completed_at = some env.now ∧
    ((r2.status = Status.completed ∧
        (∃ c, r2.confidence = some c ∧ (3 / 10 : ℚ) ≤ c) ∧
        (∃ ob, r2.wall_bounds = Option.map rectToDict ob)) ∨
      (r2.status = Status.manual ∧ r2.error_message = lowConfMsg ∧
        (∃ c, r2.confidence = some c ∧ ¬(3 / 10 : ℚ) ≤ c) ∧
        (∃ w0 h0, r1.original_width = some w0 ∧ r1.original_height = some h0 ∧
          r2.wall_bounds = some (fullDict (some w0) (some h0))))) := by
  unfold tryPipeline at h
  cases hf : env.fetchOk with
  | false => simp [hf] at h
  | true =>
    rw [if_neg (by simp [hf])] at h
    cases hdm : run_depth_estimation env.depth with
    | none => simp [hdm] at h
    | some dm =>
      simp only [hdm] at h
      cases hw1 : r1.original_width with
      | none => simp [hw1] at h
      | some w0 =>
        cases hh1 : r1.original_height with
        | none => simp [hw1, hh1] at h
        | some h0 =>
          simp only [hw1, hh1] at h
          cases hdet : env.det with
          | raisesErr m => simp [hdet] at h
          | found bounds conf dip =>
            simp only [hdet] at h
            by_cases hc : (3 / 10 : ℚ) ≤ conf
            · rw [if_pos hc] at h
              cases dip with
              | none =>
                cases h
                refine ⟨rfl, rfl, rfl, rfl, rfl, Or.inl ⟨rfl, ⟨conf, rfl, hc⟩, bounds, rfl⟩⟩
              | some b =>
                cases b with
                | true =>
                  cases h
                  refine ⟨rfl, rfl, rfl, rfl, rfl, Or.inl ⟨rfl, ⟨conf, rfl, hc⟩, bounds, rfl⟩⟩
                | false => simp at h
            · rw [if_neg hc] at h
              cases h
              exact ⟨rfl, rfl, rfl, rfl, rfl,
                Or.inr ⟨rfl, rfl, ⟨conf, rfl, hc⟩, w0, h0, rfl, rfl, rfl⟩⟩

/-- At every raise point of the `try` block, the in-memory record still has
`r1`'s image, dimensions and height, and its bounds are either untouched or
the detector's rectangle dict. -/
theorem tryPipeline_error_char (env : TaskEnv) (r1 a : WallAnalysis) (msg : String)
    (h : tryPipeline env r1 = .error (a, msg)) :
    a.original_image = r1.original_image ∧ a.original_width = r1.original_width ∧
    a.original_height = r1.original_height ∧ a.wall_height_feet = r1.wall_height_feet ∧
    (a.wall_bounds = r1.wall_bounds ∨
      ∃ ob : Option Rect, a.wall_bounds = Option.map rectToDict ob) := by
  unfold tryPipeline at h
  cases hf : env.fetchOk with
  | false =>
    rw [if_pos (by rw [hf])] at h
    injection h with hp
    injection hp with h1 h2
    subst h1
    exact ⟨rfl, rfl, rfl, rfl, Or.inl rfl⟩
  | true =>
    rw [if_neg (by simp [hf])] at h
    cases hdm : run_depth_estimation env.depth with
    | none =>
      simp only [hdm] at h
      injection h with hp
      injection hp with h1 h2
      subst h1
      exact ⟨rfl, rfl, rfl, rfl, Or.inl rfl⟩
    | some dm =>
      simp only [hdm] at h
      cases hw1 : r1.original_width with
      | none =>
        simp only [hw1] at h
        injection h with hp
        injection hp with h1 h2
        subst h1
        exact ⟨rfl, hw1, rfl, rfl, Or.inl rfl⟩
      | some w0 =>
        cases hh1 : r1.original_height with
        | none =>
          simp only [hw1, hh1] at h
          injection h with hp
          injection hp with h1 h2
          subst h1
          exact ⟨rfl, hw1, hh1, rfl, Or.inl rfl⟩
        | some h0 =>
          simp only [hw1, hh1] at h
          cases hdet : env.det with
          | raisesErr m =>
            simp only [hdet] at h
            injection h with hp
            injection hp with h1 h2
            subst h1
            exact ⟨rfl, hw1, hh1, rfl, Or.inl rfl⟩
          | found bounds conf dip =>
            simp only [hdet] at h
            by_cases hc : (3 / 10 : ℚ) ≤ conf
            · rw [if_pos hc] at h
              cases dip with
              | none => cases h
              | some b =>
                cases b with
                | true => cases h
                | false =>
                  injection h with hp
                  injection hp with h1 h2
                  subst h1
                  exact ⟨rfl, rfl, rfl, rfl, Or.inr ⟨bounds, rfl⟩⟩
            · rw [if_neg hc] at h
              cases h

/-- Without any reachability hypotheses the task preserves the
completed-confidence invariant. -/
theorem task_keeps_conf_inv (env : TaskEnv) (r f : WallAnalysis) (o : TaskOutcome)
    (h : analyze_wall_image env (some r) = (some f, o))
    (hInv : r.status = Status.completed → ∃ c, r.confidence = some c ∧ (3 / 10 : ℚ) ≤ c) :
    f.status = Status.completed → ∃ c, f.confidence = some c ∧ (3 / 10 : ℚ) ≤ c := by
  unfold analyze_wall_image at h
  cases hs1 : WallAnalysis.save { r with status := Status.processing } with
  | error e =>
    simp only [hs1] at h
    injection h with h1 h2
    cases Option.some.inj h1
    exact hInv
  | ok r1 =>
    simp only [hs1] at h
    cases htp : tryPipeline env r1 with
    | ok r2 =>
      simp only [htp] at h
      cases hs2 : r2.save with
      | ok p =>
        simp only [hs2] at h
        injection h with h1 h2
        cases Option.some.inj h1
        obtain ⟨cimg, cow, coh, cwh, cca, hbranch⟩ := tryPipeline_ok_char env r1 r2 htp
        obtain ⟨ow, oh, px, hpe⟩ := save_shape _ _ hs2
        subst hpe
        intro hcomp
        rcases hbranch with ⟨hst, ⟨c, hcs, hc3⟩, _⟩ | ⟨hst, _⟩
        · exact ⟨c, hcs, hc3⟩
        · have hmc : Status.manual = Status.completed := by
            rw [← hst]
            exact hcomp
          exact absurd hmc (by decide)
      | error msg =>
        simp only [hs2] at h
        rcases exceptPath_weak _ _ _ _ _ _ h with ⟨hman, _, _⟩ | rfl
        · intro hcomp
          rw [hman] at hcomp
          exact absurd hcomp (by decide)
        · intro hcomp
          exact absurd (show Status.processing = Status.completed from hcomp) (by decide)
    | error am =>
      obtain ⟨a, msg⟩ := am
      simp only [htp] at h
      rcases exceptPath_weak _ _ _ _ _ _ h with ⟨hman, _, _⟩ | rfl
      · intro hcomp
        rw [hman] at hcomp
        exact absurd hcomp (by decide)
      · intro hcomp
        exact absurd (show Status.processing = Status.completed from hcomp) (by decide)

/-- On a row whose persisted bounds/height cannot make `save` raise, the task
always terminates the record: the final row is stamped with the current time,
keeps the height, ends `completed` or `manual`, and a manual ending with known
dimensions carries the full-image default bounds. -/
theorem task_char (env : TaskEnv) (r f : WallAnalysis) (o : TaskOutcome)
    (hsafe : pxSafe r.wall_bounds r.wall_height_feet)
    (h : analyze_wall_image env (some r) = (some f, o)) :
    o = .finished f.status ∧ f.completed_at = some env.now ∧
    f.wall_height_feet = r.wall_height_feet ∧
    (f.status = Status.completed ∨ f.status = Status.manual) ∧
    (f.status = Status.manual → bothTruthy f.original_width f.original_height = true →
      f.wall_bounds = some (fullDict f.original_width f.original_height)) := by
  obtain ⟨r1, hs1⟩ := save_isOk { r with status := Status.processing } hsafe
  obtain ⟨ow1, oh1, p1, he1⟩ := save_shape _ _ hs1
  have h1b : r1.wall_bounds = r.wall_bounds := by rw [he1]
  have h1w : r1.wall_height_feet = r.wall_height_feet := by rw [he1]
  have hset1 := save_settled _ _ hs1
  unfold analyze_wall_image at h
  simp only [hs1] at h
  cases htp : tryPipeline env r1 with
  | ok r2 =>
    simp only [htp] at h
    obtain ⟨cimg, cow, coh, cwh, cca, hbranch⟩ := tryPipeline_ok_char env r1 r2 htp
    have hset2 : dimsSettled r2.original_image r2.original_width r2.original_height := by
      rw [cimg, cow, coh]
      exact hset1
    have hsafe2 : pxSafe r2.wall_bounds r2.wall_height_feet := by
      rcases hbranch with ⟨_, _, ob, hbnd⟩ | ⟨_, _, _, w0, h0, _, _, hbnd⟩
      · rw [hbnd]
        exact pxSafe_rect ob _
      · rw [hbnd]
        exact pxSafe_fullDict _ _ _
    obtain ⟨p, hp2⟩ := pxStep_isOk r2 hsafe2
    have hs2 : r2.save = .ok p := by
      rw [save_eq_pxStep r2 hset2]
      exact hp2
    simp only [hs2] at h
    injection h with h1 h2
    cases Option.some.inj h1
    obtain ⟨px2, hpe⟩ := pxStep_shape _ _ hp2
    have hfs : f.status = r2.status := by rw [hpe]
    have hfca : f.completed_at = r2.completed_at := by rw [hpe]
    have hfw : f.wall_height_feet = r2.wall_height_feet := by rw [hpe]
    have hfb : f.wall_bounds = r2.wall_bounds := by rw [hpe]
    have hfow : f.original_width = r2.original_width := by rw [hpe]
    have hfoh : f.original_height = r2.original_height := by rw [hpe]
    refine ⟨h2.symm, ?_, ?_, ?_, ?_⟩
    · rw [hfca, cca]
    · rw [hfw, cwh, h1w]
    · rcases hbranch with ⟨hst, _, _⟩ | ⟨hst, _, _, _⟩
      · exact Or.inl (by rw [hfs, hst])
      · exact Or.inr (by rw [hfs, hst])
    · intro hman hbt
      rcases hbranch with ⟨hst, _, _⟩ | ⟨hst, hem, hcf, w0, h0, hw1, hh1, hbnd⟩
      · rw [hfs, hst] at hman
        exact absurd hman (by decide)
      · rw [hfb, hbnd, hfow, hfoh, cow, coh, hw1, hh1]
  | error am =>
    obtain ⟨a, msg⟩ := am
    simp only [htp] at h
    obtain ⟨eimg, eow, eoh, ewh, ebnd⟩ := tryPipeline_error_char env r1 a msg htp
    have hsafe_a : pxSafe a.wall_bounds a.wall_height_feet := by
      rw [ewh, h1w]
      rcases ebnd with hb | ⟨ob, hb⟩
      · rw [hb, h1b]
        exact hsafe
      · rw [hb]
        exact pxSafe_rect ob _
    have hset_a : dimsSettled a.original_image a.original_width a.original_height := by
      rw [eimg, eow, eoh]
      exact hset1
    obtain ⟨ho, hstat, hem, hca, hwf, how, hoh, hcf, hbb⟩ :=
      exceptPath_ok_char env.now a msg _ f o hsafe_a hset_a h
    refine ⟨by rw [ho, hstat], by rw [hca], by rw [hwf, ewh, h1w], Or.inr hstat, ?_⟩
    intro _ hbt
    rcases hbb with ⟨hbtt, hbnd⟩ | ⟨hbtf, hbnd⟩
    · rw [hbnd, how, hoh]
    · rw [how, hoh, hbtf] at hbt
      cases hbt

/-! ## Claims C1-C4 -/

/-- The upload view never produces a completed row, and never sets a
confidence. -/
theorem uploadCreate_char (env : UploadEnv) (r : WallAnalysis)
    (h : uploadCreate env = .ok r) :
    r.status ≠ Status.completed ∧ r.confidence = none := by
  unfold uploadCreate at h
  cases hs : WallAnalysis.save
      { original_image := some env.image, original_width := none, original_height := none,
        status := Status.pending, error_message := "", depthMapSet := false,
        wall_bounds := none, confidence := none, pixels_per_inch := none,
        wall_height_feet := 8, completed_at := none } with
  | error e => simp [hs] at h
  | ok r1 =>
    simp only [hs] at h
    obtain ⟨ow1, oh1, p1, he1⟩ := save_shape _ _ hs
    cases hcel : env.celeryOk with
    | true =>
      rw [if_pos hcel] at h
      obtain rfl : r = r1 := (Except.ok.inj h).symm
      rw [he1]
      exact ⟨fun hc => Status.noConfusion hc, rfl⟩
    | false =>
      rw [if_neg (by simp [hcel])] at h
      obtain ⟨ow2, oh2, p2, he2⟩ := save_shape _ _ h
      rw [he2]
      refine ⟨fun hc => Status.noConfusion hc, ?_⟩
      show r1.confidence = none
      rw [he1]

/-- C1: across the three operations that write `WallAnalysis` rows — the
upload view, the analysis task and the PATCH update — a row with
`status = completed` always carries a non-null confidence that cleared the
0.3 acceptance threshold; `completed` is only ever produced by the task's
high-confidence branch. -/
theorem C1_completed_confidence :
    (∀ env r, uploadCreate env = .ok r →
      r.status = Status.completed → ∃ c, r.confidence = some c ∧ (3 / 10 : ℚ) ≤ c) ∧
    (∀ env r f o, analyze_wall_image env (some r) = (some f, o) →
      (r.status = Status.completed → ∃ c, r.confidence = some c ∧ (3 / 10 : ℚ) ≤ c) →
      (f.status = Status.completed → ∃ c, f.confidence = some c ∧ (3 / 10 : ℚ) ≤ c)) ∧
    (∀ pd r r', serializerUpdate pd r = .ok r' →
      (r.status = Status.completed → ∃ c, r.confidence = some c ∧ (3 / 10 : ℚ) ≤ c) →
      (r'.status = Status.completed → ∃ c, r'.confidence = some c ∧ (3 / 10 : ℚ) ≤ c)) := by
  refine ⟨?_, ?_, ?_⟩
  · intro env r h hcomp
    obtain ⟨hne, _⟩ := uploadCreate_char env r h
    exact absurd hcomp hne
  · intro env r f o h hInv
    exact task_keeps_conf_inv env r f o h hInv
  · intro pd r r' h hInv hcomp
    obtain ⟨h1, h2, h3⟩ := patch_char pd r r' h
    rcases hpb : pd.wall_bounds with _ | b
    · obtain ⟨hst, _⟩ := h1 hpb
      rw [h3]
      exact hInv (by rw [← hst]; exact hcomp)
    · obtain ⟨hst, _⟩ := h2 b hpb
      rw [hst] at hcomp
      exact absurd hcomp (by decide)

/-- C1 witness: a fresh upload satisfies the invariant. -/
theorem C1_witness :
    rPending.status = Status.completed →
      ∃ c, rPending.confidence = some c ∧ (3 / 10 : ℚ) ≤ c :=
  C1_completed_confidence.1 uploadEnvOk rPending rfl

/-- C2 counterexample: invoking the task again on the already-completed row
`rCompleted` (terminal, `completed_at = 5`) is not a no-op — under a failing
fetch it reverts the row to `manual` and overwrites `completed_at` with the
new invocation's timestamp 100, while the claim demands an unchanged row. -/
theorem C2_counterexample :
    rCompleted.status = Status.completed ∧ rCompleted.completed_at = some 5 ∧
    ((analyze_wall_image envFetchFail (some rCompleted)).1.map
        (fun x => (x.status, x.completed_at)) = some (Status.manual, some 100)) ∧
    (analyze_wall_image envFetchFail (some rCompleted)).2 =
      .finished Status.manual := by
  decide

/-- C2 (amended): re-invoking the task on an already-terminal persistable row
is not a no-op: the guard-free task re-runs the pipeline (flipping the row
through `processing`) and the persisted row ends `completed` or `manual` with
`completed_at` overwritten by the new invocation's timestamp. -/
theorem C2_reinvocation_reprocesses (env : TaskEnv) (r f : WallAnalysis) (o : TaskOutcome)
    (hsafe : pxSafe r.wall_bounds r.wall_height_feet)
    (_hterm : r.status = Status.completed ∨ r.status = Status.manual ∨
      r.status = Status.failed)
    (h : analyze_wall_image env (some r) = (some f, o)) :
    o = .finished f.status ∧ f.completed_at = some env.now ∧
    (f.status = Status.completed ∨ f.status = Status.manual) := by
  obtain ⟨h1, h2, _, h4, _⟩ := task_char env r f o hsafe h
  exact ⟨h1, h2, h4⟩

/-- C2 witness: the terminal completed row `rCompleted` is re-processed: the
persisted row is freshly stamped with timestamp 100. -/
theorem C2_witness :
    (analyze_wall_image envFetchFail (some rCompleted)).2 =
      .finished ((analyze_wall_image envFetchFail (some rCompleted)).1.getD rPending).status ∧
    ((analyze_wall_image envFetchFail (some rCompleted)).1.getD rPending).completed_at =
      some 100 ∧
    (((analyze_wall_image envFetchFail (some rCompleted)).1.getD rPending).status =
        Status.completed ∨
      ((analyze_wall_image envFetchFail (some rCompleted)).1.getD rPending).status =
        Status.manual) :=
  C2_reinvocation_reprocesses envFetchFail rCompleted
    ((analyze_wall_image envFetchFail (some rCompleted)).1.getD rPending)
    ((analyze_wall_image envFetchFail (some rCompleted)).2)
    (fun _ => rfl) (Or.inl rfl) rfl

/-- C3: whenever the `try` block of the task raises — the S3 fetch failing,
depth estimation returning `None`, the detector raising (including a call on
null dimensions) or the depth-visualization file being unreadable — the task
swallows the exception and persists a terminal row: `status = manual`,
`error_message` carrying the failure detail, `completed_at` stamped; the row
is not left stuck in `processing`. -/
theorem C3_exception_terminalizes (env : TaskEnv) (r r1 a : WallAnalysis) (msg : String)
    (hsafe : pxSafe r.wall_bounds r.wall_height_feet)
    (hs1 : WallAnalysis.save { r with status := Status.processing } = .ok r1)
    (htp : tryPipeline env r1 = .error (a, msg)) :
    ∃ f, analyze_wall_image env (some r) = (some f, .finished Status.manual) ∧
      f.status = Status.manual ∧ f.error_message = mlFailMsg msg ∧
      f.completed_at = some env.now := by
  obtain ⟨ow1, oh1, p1, he1⟩ := save_shape _ _ hs1
  have h1b : r1.wall_bounds = r.wall_bounds := by rw [he1]
  have h1w : r1.wall_height_feet = r.wall_height_feet := by rw [he1]
  have hset1 := save_settled _ _ hs1
  obtain ⟨eimg, eow, eoh, ewh, ebnd⟩ := tryPipeline_error_char env r1 a msg htp
  have hsafe_a : pxSafe a.wall_bounds a.wall_height_feet := by
    rw [ewh, h1w]
    rcases ebnd with hb | ⟨ob, hb⟩
    · rw [hb, h1b]
      exact hsafe
    · rw [hb]
      exact pxSafe_rect ob _
  have hset_a : dimsSettled a.original_image a.original_width a.original_height := by
    rw [eimg, eow, eoh]
    exact hset1
  obtain ⟨p, hp⟩ := exceptRecord_save_ok env.now a msg hsafe_a hset_a
  have hp2 : pxStep (exceptRecord env.now a msg) = .ok p := by
    rw [← save_eq_pxStep (exceptRecord env.now a msg) hset_a]
    exact hp
  obtain ⟨px2, hpe⟩ := pxStep_shape _ _ hp2
  refine ⟨p, ?_, ?_, ?_, ?_⟩
  · unfold analyze_wall_image
    simp only [hs1, htp]
    unfold exceptPath
    rw [hp]
  · rw [hpe]
    rfl
  · rw [hpe]
    rfl
  · rw [hpe]
    rfl

/-- C3 witness: with the depth model unavailable, the pending row is
finalized as manual with the failure detail and a terminal timestamp. -/
theorem C3_witness :
    ∃ f, analyze_wall_image envDepthUnavailable (some rPending) =
        (some f, .finished Status.manual) ∧
      f.status = Status.manual ∧
      f.error_message = mlFailMsg "Depth estimation failed" ∧
      f.completed_at = some 100 :=
  C3_exception_terminalizes envDepthUnavailable rPending
    { rPending with status := Status.processing }
    { rPending with status := Status.processing }
    "Depth estimation failed" (fun _ => rfl) rfl rfl

/-- C4 counterexample: a record whose stored image PIL cannot decode (so both
dimensions are null) reaches `status = manual` through the task's exception
branch with `wall_bounds` still null — refuting `manual ⇒ wall_bounds`
non-null. -/
theorem C4_counterexample :
    ((analyze_wall_image envDepthUnavailable (some rUndecodable)).1.map
        (fun x => (x.status, x.wall_bounds)) = some (Status.manual, none)) ∧
    (analyze_wall_image envDepthUnavailable (some rUndecodable)).2 =
      .finished Status.manual := by
  decide

/-- C4 (amended): when the task ends a row `manual` and both image dimensions
are known (non-null and nonzero), `wall_bounds` is the full-image rectangle;
when the dimensions are unknown the exception branch leaves `wall_bounds`
unchanged (possibly null).  The PATCH update instead stores exactly the
caller-supplied bounds (possibly null) while moving status to `manual`. -/
theorem C4_manual_bounds :
    (∀ env r f o, pxSafe r.wall_bounds r.wall_height_feet →
      analyze_wall_image env (some r) = (some f, o) → f.status = Status.manual →
      bothTruthy f.original_width f.original_height = true →
      f.wall_bounds = some (fullDict f.original_width f.original_height)) ∧
    (∀ pd r r' b, serializerUpdate pd r = .ok r' → pd.wall_bounds = some b →
      r'.wall_bounds = b ∧ r'.status = Status.manual) := by
  constructor
  · intro env r f o hsafe h hman hbt
    obtain ⟨_, _, _, _, h5⟩ := task_char env r f o hsafe h
    exact h5 hman hbt
  · intro pd r r' b h hb
    obtain ⟨_, h2, _⟩ := patch_char pd r r' h
    obtain ⟨hst, hbd⟩ := h2 b hb
    exact ⟨hbd, hst⟩

/-- C4 witness: re-processing `rCompleted` under a failing fetch ends manual
with the full-image default bounds, the dimensions being known. -/
theorem C4_witness :
    ((analyze_wall_image envFetchFail (some rCompleted)).1.getD rPending).wall_bounds =
      some (fullDict
        ((analyze_wall_image envFetchFail (some rCompleted)).1.getD rPending).original_width
        ((analyze_wall_image envFetchFail (some rCompleted)).1.getD rPending).original_height) :=
  C4_manual_bounds.1 envFetchFail rCompleted
    ((analyze_wall_image envFetchFail (some rCompleted)).1.getD rPending)
    ((analyze_wall_image envFetchFail (some rCompleted)).2)
    (fun _ => rfl) rfl rfl rfl

/-- C6 counterexample: a PATCH supplying only `wall_height_feet` on a pending
(not terminal-completed) record does not move the status to `manual` — it
stays `pending`, while the claim demands `manual`. -/
theorem C6_counterexample :
    (serializerUpdate pdHeightOnly rPending).map (fun x => x.status) =
      .ok Status.pending ∧
    rPending.status ≠ Status.completed ∧ rPending.status ≠ Status.manual := by
  refine ⟨rfl, by decide, by decide⟩

/-- C6 (amended): the PATCH update moves status to `manual` exactly when
`wall_bounds` is present in the request body — regardless of the record's
prior status, including already-completed ones — and leaves status unchanged
when only `wall_height_feet` is supplied; the triggered save recomputes
`pixels_per_inch` from the updated bounds and effective height whenever they
are usable. -/
theorem C6_patch_status_and_recompute (pd : PatchData) (r r' : WallAnalysis)
    (h : serializerUpdate pd r = .ok r') :
    (∀ b, pd.wall_bounds = some b → r'.status = Status.manual) ∧
    (pd.wall_bounds = none → r'.status = r.status) ∧
    (∀ d bb tt, pd.wall_bounds = some (some d) → dictGet d "bottom" = .jint bb →
      dictGet d "top" = .jint tt → tt < bb →
      0 < pd.wall_height_feet.getD r.wall_height_feet →
      r'.pixels_per_inch =
        some (((bb - tt : Int) : ℚ) / (pd.wall_height_feet.getD r.wall_height_feet * 12))) := by
  obtain ⟨h1, h2, _⟩ := patch_char pd r r' h
  refine ⟨fun b hb => (h2 b hb).1, fun hn => (h1 hn).1, ?_⟩
  intro d bb tt hb hgb hgt hlt hw
  exact patch_px pd r r' d bb tt h hb hgb hgt hlt hw

/-- C6 witness: a PATCH carrying bounds moves the pending record to manual. -/
theorem C6_witness :
    ((serializerUpdate pdBoundsAndHeight rPending).toOption.getD rPending).status =
      Status.manual :=
  (C6_patch_status_and_recompute pdBoundsAndHeight rPending
      ((serializerUpdate pdBoundsAndHeight rPending).toOption.getD rPending) rfl).1
    (some [("top", .jint 50), ("bottom", .jint 750), ("left", .jint 100),
      ("right", .jint 900)]) rfl

/-! ## Claims C7, C8, C10: the depth module -/

theorem foldl_min_le_init (xs : List ℚ) (a : ℚ) : xs.foldl min a ≤ a := by
  induction xs generalizing a with
  | nil => simp
  | cons x xs ih => exact le_trans (ih (min a x)) (min_le_left a x)

theorem foldl_min_le_mem (xs : List ℚ) (a x : ℚ) (hx : x ∈ xs) : xs.foldl min a ≤ x := by
  induction xs generalizing a with
  | nil => cases hx
  | cons y ys ih =>
    rcases List.mem_cons.mp hx with rfl | hx2
    · exact le_trans (foldl_min_le_init ys (min a x)) (min_le_right a x)
    · exact ih (min a y) hx2

theorem le_foldl_max_init (xs : List ℚ) (a : ℚ) : a ≤ xs.foldl max a := by
  induction xs generalizing a with
  | nil => simp
  | cons x xs ih => exact le_trans (le_max_left a x) (ih (max a x))

theorem le_foldl_max_mem (xs : List ℚ) (a x : ℚ) (hx : x ∈ xs) : x ≤ xs.foldl max a := by
  induction xs generalizing a with
  | nil => cases hx
  | cons y ys ih =>
    rcases List.mem_cons.mp hx with rfl | hx2
    · exact le_trans (le_max_right a x) (le_foldl_max_init ys (max a x))
    · exact ih (max a y) hx2

theorem listMin_le (l : List ℚ) (x : ℚ) (hx : x ∈ l) : listMin l ≤ x := by
  cases l with
  | nil => cases hx
  | cons y ys =>
    rcases List.mem_cons.mp hx with rfl | h2
    · exact foldl_min_le_init ys x
    · exact foldl_min_le_mem ys y x h2

theorem le_listMax (l : List ℚ) (x : ℚ) (hx : x ∈ l) : x ≤ listMax l := by
  cases l with
  | nil => cases hx
  | cons y ys =>
    rcases List.mem_cons.mp hx with rfl | h2
    · exact le_foldl_max_init ys x
    · exact le_foldl_max_mem ys y x h2

theorem foldl_max_le (xs : List ℚ) (a c : ℚ) (ha : a ≤ c) (h : ∀ x ∈ xs, x ≤ c) :
    xs.foldl max a ≤ c := by
  induction xs generalizing a with
  | nil => exact ha
  | cons y ys ih =>
    exact ih (max a y) (max_le ha (h y (List.mem_cons_self y ys)))
      (fun x hx => h x (List.mem_cons_of_mem y hx))

theorem listMax_le (l : List ℚ) (c : ℚ) (h : ∀ x ∈ l, x ≤ c) (hne : l ≠ []) :
    listMax l ≤ c := by
  cases l with
  | nil => exact absurd rfl hne
  | cons y ys =>
    exact foldl_max_le ys y c (h y (List.mem_cons_self y ys))
      (fun x hx => h x (List.mem_cons_of_mem y hx))

theorem le_foldl_min (xs : List ℚ) (a c : ℚ) (ha : c ≤ a) (h : ∀ x ∈ xs, c ≤ x) :
    c ≤ xs.foldl min a := by
  induction xs generalizing a with
  | nil => exact ha
  | cons y ys ih =>
    exact ih (min a y) (le_min ha (h y (List.mem_cons_self y ys)))
      (fun x hx => h x (List.mem_cons_of_mem y hx))

theorem le_listMin (l : List ℚ) (c : ℚ) (h : ∀ x ∈ l, c ≤ x) (hne : l ≠ []) :
    c ≤ listMin l := by
  cases l with
  | nil => exact absurd rfl hne
  | cons y ys =>
    exact le_foldl_min ys y c (h y (List.mem_cons_self y ys))
      (fun x hx => h x (List.mem_cons_of_mem y hx))

theorem val_mem_gridVals (g : Grid) (i j : Nat) (hi : i < g.h) (hj : j < g.w) :
    g.val i j ∈ gridVals g := by
  unfold gridVals
  rw [List.mem_flatMap]
  exact ⟨i, List.mem_range.mpr hi, List.mem_map.mpr ⟨j, List.mem_range.mpr hj, rfl⟩⟩

theorem mem_gridVals (g : Grid) (x : ℚ) (hx : x ∈ gridVals g) :
    ∃ i j, i < g.h ∧ j < g.w ∧ x = g.val i j := by
  unfold gridVals at hx
  rw [List.mem_flatMap] at hx
  obtain ⟨i, hi, hx2⟩ := hx
  rw [List.mem_map] at hx2
  obtain ⟨j, hj, rfl⟩ := hx2
  exact ⟨i, j, List.mem_range.mp hi, List.mem_range.mp hj, rfl⟩

theorem bilinear_zero (g : Nat → Nat → ℚ) (h w : Nat) (y x : ℚ)
    (hg : ∀ i j, g i j = 0) : bilinear g h w y x = 0 := by
  unfold bilinear
  simp only [hg]
  ring

theorem resizeU8_val (u : Grid) (W H i j : Nat) :
    (resizeU8 u W H).val i j =
      ((min 255 (Int.toNat ⌊bilinear u.val u.h u.w (srcCoord i H u.h) (srcCoord j W u.w)
        + 1 / 2⌋) : Nat) : ℚ) := rfl

/-- C8: on a nonempty raw output whose entries are all equal, postprocessing
performs no division (the min-max divisor branch is skipped) and the final
map is identically zero; on any nonempty output with two differing entries
the min-max divisor is strictly positive. -/
theorem C8_no_division_by_zero (raw : Grid) (W H : Nat)
    (hh : 0 < raw.h) (hw : 0 < raw.w) :
    ((∀ i j, i < raw.h → j < raw.w → raw.val i j = raw.val 0 0) →
      ∃ m, postprocess_depth raw (W, H) = .ok m ∧ ∀ i j, m.val i j = 0) ∧
    ((∃ i j, i < raw.h ∧ j < raw.w ∧ raw.val i j ≠ raw.val 0 0) →
      0 < listMax (gridVals raw) - listMin (gridVals raw)) := by
  have hguard : ¬((raw.h = 0 || raw.w = 0) = true) := by
    simp only [Bool.or_eq_true, decide_eq_true_eq]
    omega
  constructor
  · intro hall
    have h00mem : raw.val 0 0 ∈ gridVals raw := val_mem_gridVals raw 0 0 hh hw
    have hne : gridVals raw ≠ [] := List.ne_nil_of_mem h00mem
    have heq : ∀ x ∈ gridVals raw, x = raw.val 0 0 := by
      intro x hx
      obtain ⟨i, j, hi, hj, rfl⟩ := mem_gridVals raw x hx
      exact hall i j hi hj
    have hmax : listMax (gridVals raw) ≤ raw.val 0 0 :=
      listMax_le _ _ (fun x hx => le_of_eq (heq x hx)) hne
    have hmin : raw.val 0 0 ≤ listMin (gridVals raw) :=
      le_listMin _ _ (fun x hx => ge_of_eq (heq x hx)) hne
    have hnpos : ¬(0 < listMax (gridVals raw) - listMin (gridVals raw)) := by linarith
    have hu8 : ∀ i j, (u8Grid raw).val i j = 0 := by
      intro i j
      show ((toU8 (255 * (normGrid raw).val i j) : Nat) : ℚ) = 0
      unfold normGrid
      rw [if_neg hnpos]
      show ((toU8 (255 * (0 : ℚ)) : Nat) : ℚ) = 0
      norm_num [toU8]
    refine ⟨{ resizeU8 (u8Grid raw) W H with
        val := fun i j => (resizeU8 (u8Grid raw) W H).val i j / 255 }, ?_, ?_⟩
    · unfold postprocess_depth
      rw [if_neg hguard]
    · intro i j
      show (resizeU8 (u8Grid raw) W H).val i j / 255 = 0
      rw [resizeU8_val, bilinear_zero _ _ _ _ _ hu8, zero_add]
      have hf : ⌊(1 / 2 : ℚ)⌋ = 0 := by
        rw [Int.floor_eq_zero_iff]
        constructor <;> norm_num
      rw [hf]
      norm_num
  · rintro ⟨i, j, hi, hj, hne0⟩
    have ha : raw.val i j ∈ gridVals raw := val_mem_gridVals raw i j hi hj
    have hb : raw.val 0 0 ∈ gridVals raw := val_mem_gridVals raw 0 0 hh hw
    have h1 := listMin_le _ _ ha
    have h2 := listMin_le _ _ hb
    have h3 := le_listMax _ _ ha
    have h4 := le_listMax _ _ hb
    rcases lt_or_gt_of_ne hne0 with hlt | hgt
    · linarith
    · linarith

/-- C8 witness: a constant 2×2 raw output maps to the all-zero 3×3 map. -/
theorem C8_witness :
    ∃ m, postprocess_depth ⟨2, 2, fun _ _ => 1 / 2⟩ (3, 3) = .ok m ∧
      ∀ i j, m.val i j = 0 :=
  (C8_no_division_by_zero ⟨2, 2, fun _ _ => 1 / 2⟩ 3 3 (by decide) (by decide)).1
    (fun _ _ _ _ => rfl)

theorem depthTry_eq (env : DepthEnv) :
    depthTry env =
      match env.preprocessResult with
      | .error e => .error e
      | .ok osize =>
        match env.inferResult with
        | .error e => .error e
        | .ok raw => postprocess_depth raw osize := by
  unfold depthTry
  cases env.preprocessResult <;> cases env.inferResult <;> rfl

/-- C10: every value of a depth map actually returned by
`run_depth_estimation` is `k / 255` for some `k ≤ 255` — the normalized map
is quantized through an 8-bit image before the final resize, so at most 256
distinct depth values survive and every value lies in `[0, 1]`. -/
theorem C10_output_quantized (env : DepthEnv) (m : Grid)
    (h : run_depth_estimation env = some m) (i j : Nat) :
    ∃ k : Nat, k ≤ 255 ∧ m.val i j = (k : ℚ) / 255 := by
  unfold run_depth_estimation at h
  cases hg : get_model env with
  | none => simp [hg] at h
  | some u =>
    simp only [hg] at h
    cases ht : depthTry env with
    | error e => simp [ht] at h
    | ok m2 =>
      simp only [ht] at h
      obtain rfl : m2 = m := Option.some.inj h
      rw [depthTry_eq] at ht
      cases hp : env.preprocessResult with
      | error e => simp [hp] at ht
      | ok osize =>
        simp only [hp] at ht
        cases hi : env.inferResult with
        | error e => simp [hi] at ht
        | ok raw =>
          simp only [hi] at ht
          unfold postprocess_depth at ht
          by_cases hz : (raw.h = 0 || raw.w = 0) = true
          · rw [if_pos hz] at ht
            cases ht
          · rw [if_neg hz] at ht
            obtain rfl := Except.ok.inj ht
            exact ⟨_, Nat.min_le_left _ _, rfl⟩

/-- C10 witness: a successful run on `depthEnvOk` produces a quantized
value at pixel (0, 0). -/
theorem C10_witness :
    ∃ k : Nat, k ≤ 255 ∧
      ((run_depth_estimation depthEnvOk).getD ⟨0, 0, fun _ _ => 0⟩).val 0 0 =
        (k : ℚ) / 255 :=
  C10_output_quantized depthEnvOk
    ((run_depth_estimation depthEnvOk).getD ⟨0, 0, fun _ _ => 0⟩) rfl 0 0

/-- C7: `run_depth_estimation` never propagates a failure: it returns `None`
exactly when the model is unavailable or some stage of the try block raised,
and whenever it returns a map that map is the completed postprocessing
result of the successful stages — never a partially-filled one.  In
particular missing runtime, missing weights with a failed download, or a
failed session load all yield `None`. -/
theorem C7_unavailable_never_raises (env : DepthEnv) :
    (run_depth_estimation env = none ↔
      get_model env = none ∨ ∃ e, depthTry env = .error e) ∧
    (∀ m, run_depth_estimation env = some m → depthTry env = .ok m) ∧
    (env.cached = false →
      env.onnxImport = false ∨ download_model env = false ∨ env.sessionOk = false →
      run_depth_estimation env = none) := by
  refine ⟨?_, ?_, ?_⟩
  · unfold run_depth_estimation
    cases hg : get_model env with
    | none => simp
    | some u =>
      cases ht : depthTry env with
      | ok m2 => simp
      | error e => simp
  · intro m hm
    unfold run_depth_estimation at hm
    cases hg : get_model env with
    | none => simp [hg] at hm
    | some u =>
      simp only [hg] at hm
      cases ht : depthTry env with
      | error e => simp [ht] at hm
      | ok m2 =>
        simp only [ht] at hm
        rw [Option.some.inj hm]
  · intro hc hzero
    have hgm : get_model env = none := by
      unfold get_model
      rw [if_neg (by simp [hc])]
      rcases hzero with h1 | h1 | h1
      · rw [if_pos (by simp [h1])]
      · cases ho : env.onnxImport
        · rw [if_pos (by simp [ho])]
        · rw [if_neg (by simp [ho]), if_pos (by simp [h1])]
      · cases ho : env.onnxImport
        · rw [if_pos (by simp [ho])]
        · rw [if_neg (by simp [ho])]
          cases hd : download_model env
          · rw [if_pos (by simp [hd])]
          · rw [if_neg (by simp [hd]), if_neg (by simp [h1])]
    unfold run_depth_estimation
    rw [hgm]

/-- C7 witness: missing weights that cannot be downloaded yield `None`. -/
theorem C7_witness : run_depth_estimation depthEnvNoModel = none :=
  (C7_unavailable_never_raises depthEnvNoModel).2.2 rfl (Or.inr (Or.inl rfl))

/-! ## Claim C9: the retention sweeper -/

theorem mockupStep_analyses (st : Store) (m : MockupRow) :
    (mockupStep st m).analyses = st.analyses := by
  unfold mockupStep
  split
  · rfl
  · split <;> rfl

theorem mockupStep_mem_mockups (st : Store) (m : MockupRow) (x : MockupRow)
    (hx : x ∈ (mockupStep st m).mockups) : x ∈ st.mockups := by
  unfold mockupStep at hx
  split at hx
  · exact hx
  · split at hx
    · exact hx
    · exact (List.mem_filter.mp hx).1

theorem mockupStep_mem_files (st : Store) (m : MockupRow) (x : Nat)
    (hx : x ∈ (mockupStep st m).files) : x ∈ st.files := by
  unfold mockupStep at hx
  split at hx
  · exact hx
  · split at hx
    · exact (List.mem_filter.mp hx).1
    · exact (List.mem_filter.mp hx).1

theorem analysisStep_mem_analyses (st : Store) (a : AnalysisRow) (x : AnalysisRow)
    (hx : x ∈ (analysisStep st a).analyses) : x ∈ st.analyses := by
  unfold analysisStep at hx
  split at hx
  · exact hx
  · exact (List.mem_filter.mp hx).1

theorem analysisStep_mem_mockups (st : Store) (a : AnalysisRow) (x : MockupRow)
    (hx : x ∈ (analysisStep st a).mockups) : x ∈ st.mockups := by
  unfold analysisStep at hx
  split at hx
  · exact hx
  · exact (List.mem_filter.mp hx).1

theorem analysisStep_mem_files (st : Store) (a : AnalysisRow) (x : Nat)
    (hx : x ∈ (analysisStep st a).files) : x ∈ st.files := by
  unfold analysisStep at hx
  split at hx
  · exact hx
  · exact (List.mem_filter.mp hx).1

theorem foldM_analyses (L : List MockupRow) (st : Store) :
    (L.foldl mockupStep st).analyses = st.analyses := by
  induction L generalizing st with
  | nil => rfl
  | cons m L ih => rw [List.foldl_cons, ih, mockupStep_analyses]

theorem foldM_not_mem_mockups (L : List MockupRow) (st : Store) (x : MockupRow)
    (hx : x ∉ st.mockups) : x ∉ (L.foldl mockupStep st).mockups := by
  induction L generalizing st with
  | nil => exact hx
  | cons m L ih =>
    exact ih _ (fun hmem => hx (mockupStep_mem_mockups _ _ _ hmem))

theorem foldM_not_mem_files (L : List MockupRow) (st : Store) (x : Nat)
    (hx : x ∉ st.files) : x ∉ (L.foldl mockupStep st).files := by
  induction L generalizing st with
  | nil => exact hx
  | cons m L ih =>
    exact ih _ (fun hmem => hx (mockupStep_mem_files _ _ _ hmem))

theorem foldA_not_mem_analyses (L : List AnalysisRow) (st : Store) (x : AnalysisRow)
    (hx : x ∉ st.analyses) : x ∉ (L.foldl analysisStep st).analyses := by
  induction L generalizing st with
  | nil => exact hx
  | cons b L ih =>
    exact ih _ (fun hmem => hx (analysisStep_mem_analyses _ _ _ hmem))

theorem foldA_not_mem_mockups (L : List AnalysisRow) (st : Store) (x : MockupRow)
    (hx : x ∉ st.mockups) : x ∉ (L.foldl analysisStep st).mockups := by
  induction L generalizing st with
  | nil => exact hx
  | cons b L ih =>
    exact ih _ (fun hmem => hx (analysisStep_mem_mockups _ _ _ hmem))

theorem foldA_not_mem_files (L : List AnalysisRow) (st : Store) (x : Nat)
    (hx : x ∉ st.files) : x ∉ (L.foldl analysisStep st).files := by
  induction L generalizing st with
  | nil => exact hx
  | cons b L ih =>
    exact ih _ (fun hmem => hx (analysisStep_mem_files _ _ _ hmem))

/-- An old analysis whose `delete()` does not raise is gone after the
analysis loop, and its stored file with it. -/
theorem foldA_removes (L : List AnalysisRow) (st : Store) (a : AnalysisRow)
    (ha : a ∈ L) (hdf : a.deleteFails = false) :
    a ∉ (L.foldl analysisStep st).analyses ∧
    a.fileRef ∉ (L.foldl analysisStep st).files := by
  induction L generalizing st with
  | nil => cases ha
  | cons b L ih =>
    rcases List.mem_cons.mp ha with rfl | ha2
    · rw [List.foldl_cons]
      constructor
      · apply foldA_not_mem_analyses
        unfold analysisStep
        rw [if_neg (by simp [hdf])]
        intro hmem
        have h2 := (List.mem_filter.mp hmem).2
        simp at h2
      · apply foldA_not_mem_files
        unfold analysisStep
        rw [if_neg (by simp [hdf])]
        intro hmem
        have h2 := (List.mem_filter.mp hmem).2
        simp at h2
    · exact ih _ ha2

/-- A referencing mockup whose two deletions both succeed is gone after the
mockup loop, and its stored file with it. -/
theorem foldM_removes (L : List MockupRow) (st : Store) (m : MockupRow)
    (hm : m ∈ L) (h1 : m.fileDeleteFails = false) (h2 : m.deleteFails = false) :
    m ∉ (L.foldl mockupStep st).mockups ∧
    m.fileRef ∉ (L.foldl mockupStep st).files := by
  induction L generalizing st with
  | nil => cases hm
  | cons b L ih =>
    rcases List.mem_cons.mp hm with rfl | hm2
    · rw [List.foldl_cons]
      constructor
      · apply foldM_not_mem_mockups
        unfold mockupStep
        rw [if_neg (by simp [h1]), if_neg (by simp [h2])]
        intro hmem
        have h3 := (List.mem_filter.mp hmem).2
        simp at h3
      · apply foldM_not_mem_files
        unfold mockupStep
        rw [if_neg (by simp [h1]), if_neg (by simp [h2])]
        intro hmem
        have h3 := (List.mem_filter.mp hmem).2
        simp at h3
    · exact ih _ hm2

/-- A row none of the processed old rows shares an id with survives the
analysis loop. -/
theorem foldA_keeps (L : List AnalysisRow) (st : Store) (a : AnalysisRow)
    (hids : ∀ b ∈ L, b.aid ≠ a.aid) (ha : a ∈ st.analyses) :
    a ∈ (L.foldl analysisStep st).analyses := by
  induction L generalizing st with
  | nil => exact ha
  | cons b L ih =>
    have hstep : a ∈ (analysisStep st b).analyses := by
      unfold analysisStep
      split
      · exact ha
      · refine List.mem_filter.mpr ⟨ha, ?_⟩
        simp only [decide_eq_true_eq]
        exact fun he => hids b (List.mem_cons_self b L) he.symm
    rw [List.foldl_cons]
    exact ih _ (fun c hc => hids c (List.mem_cons_of_mem b hc)) hstep

/-- C9: after the sweeper runs, every analysis older than `now - hours` whose
deletion does not raise is gone together with its owned stored file; no
younger analysis is deleted; and every SavedMockup referencing an old
analysis whose file and row deletions succeed is deleted individually with
its stored file released — all regardless of whether deleting any other
record raises (failure isolation is the per-row quantification). -/
theorem C9_sweep (now hours : Int) (st : Store)
    (hids : (st.analyses.map (fun a => a.aid)).Nodup) :
    (∀ a ∈ st.analyses, a.created_at < now - hours → a.deleteFails = false →
      a ∉ (cleanup_old_wall_analyses now hours st).1.analyses ∧
      a.fileRef ∉ (cleanup_old_wall_analyses now hours st).1.files) ∧
    (∀ a ∈ st.analyses, ¬(a.created_at < now - hours) →
      a ∈ (cleanup_old_wall_analyses now hours st).1.analyses) ∧
    (∀ m ∈ st.mockups,
      (∃ a ∈ st.analyses, a.aid = m.analysisId ∧ a.created_at < now - hours) →
      m.fileDeleteFails = false → m.deleteFails = false →
      m ∉ (cleanup_old_wall_analyses now hours st).1.mockups ∧
      m.fileRef ∉ (cleanup_old_wall_analyses now hours st).1.files) := by
  by_cases hz : (oldAnalyses now hours st).length = 0
  · have hnil : oldAnalyses now hours st = [] := List.length_eq_zero.mp hz
    have hres : (cleanup_old_wall_analyses now hours st).1 = st := by
      unfold cleanup_old_wall_analyses
      rw [if_pos hz]
    refine ⟨?_, ?_, ?_⟩
    · intro a ha hold _
      have : a ∈ oldAnalyses now hours st :=
        List.mem_filter.mpr ⟨ha, by simpa using hold⟩
      rw [hnil] at this
      cases this
    · intro a ha _
      rw [hres]
      exact ha
    · intro m _ ⟨a, ha, _, hold⟩ _ _
      have : a ∈ oldAnalyses now hours st :=
        List.mem_filter.mpr ⟨ha, by simpa using hold⟩
      rw [hnil] at this
      cases this
  · have hres : (cleanup_old_wall_analyses now hours st).1 =
        (oldAnalyses now hours st).foldl analysisStep
          ((refMockups now hours st).foldl mockupStep st) := by
      unfold cleanup_old_wall_analyses
      rw [if_neg hz]
    rw [hres]
    refine ⟨?_, ?_, ?_⟩
    · intro a ha hold hdf
      have hmem : a ∈ oldAnalyses now hours st :=
        List.mem_filter.mpr ⟨ha, by simpa using hold⟩
      exact foldA_removes _ _ a hmem hdf
    · intro a ha hyoung
      apply foldA_keeps
      · intro b hb he
        have hbmem : b ∈ st.analyses := (List.mem_filter.mp hb).1
        have hbold : b.created_at < now - hours := by
          have := (List.mem_filter.mp hb).2
          simpa using this
        have hba : b = a := List.inj_on_of_nodup_map hids hbmem ha he
        rw [hba] at hbold
        exact hyoung hbold
      · rw [foldM_analyses]
        exact ha
    · intro m hm ⟨a, ha, haid, hold⟩ h1 h2
      have haold : a ∈ oldAnalyses now hours st :=
        List.mem_filter.mpr ⟨ha, by simpa using hold⟩
      have hmm : m ∈ refMockups now hours st := by
        refine List.mem_filter.mpr ⟨hm, ?_⟩
        apply List.elem_iff.mpr
        rw [← haid]
        exact List.mem_map.mpr ⟨a, haold, rfl⟩
      obtain ⟨hm1, hm2⟩ := foldM_removes _ st m hmm h1 h2
      exact ⟨foldA_not_mem_mockups _ _ _ hm1, foldA_not_mem_files _ _ _ hm2⟩

/-- C9 witness: with the Scenario E store (one analysis 25 h old with a saved
mockup, one 1 h old), sweeping at `now = 100` with a 24-hour threshold
deletes the old analysis, its file, the referencing mockup and its file, and
keeps the young analysis. -/
theorem C9_witness :
    ((⟨1, 75, 11, false⟩ : AnalysisRow) ∉
        (cleanup_old_wall_analyses 100 24 storeW).1.analyses ∧
      (11 : Nat) ∉ (cleanup_old_wall_analyses 100 24 storeW).1.files) ∧
    (⟨2, 99, 12, false⟩ : AnalysisRow) ∈
      (cleanup_old_wall_analyses 100 24 storeW).1.analyses ∧
    ((⟨7, 1, 21, false, false⟩ : MockupRow) ∉
        (cleanup_old_wall_analyses 100 24 storeW).1.mockups ∧
      (21 : Nat) ∉ (cleanup_old_wall_analyses 100 24 storeW).1.files) := by
  obtain ⟨c1, c2, c3⟩ := C9_sweep 100 24 storeW (by decide)
  refine ⟨?_, ?_, ?_⟩
  · exact c1 ⟨1, 75, 11, false⟩ (by decide) (by decide) rfl
  · exact c2 ⟨2, 99, 12, false⟩ (by decide) (by decide)
  · exact c3 ⟨7, 1, 21, false, false⟩ (by decide)
      ⟨⟨1, 75, 11, false⟩, by decide, rfl, by decide⟩ rfl rfl

/-- If `pxStep` succeeded on a row, that row's bounds/height pair is safe. -/
theorem pxStep_ok_pxSafe (q x : WallAnalysis) (h : pxStep q = .ok x) :
    pxSafe q.wall_bounds q.wall_height_feet := by
  intro hc
  unfold pxStep at h
  rw [if_pos hc] at h
  cases hpy : pySub (dictGet (q.wall_bounds.getD []) "bottom")
      (dictGet (q.wall_bounds.getD []) "top") with
  | ok px => rfl
  | error e => simp [hpy] at h

/-- Every row a successful `save` persists satisfies `pxSafe` of its own
columns: the reachability hypothesis used for the task claims is an invariant
of persistence (a save that would raise never persists anything). -/
theorem save_pxSafe (r r' : WallAnalysis) (h : r.save = .ok r') :
    pxSafe r'.wall_bounds r'.wall_height_feet := by
  obtain ⟨ow, oh, p, he⟩ := save_shape _ _ h
  subst he
  show pxSafe r.wall_bounds r.wall_height_feet
  unfold WallAnalysis.save at h
  obtain ⟨ow2, oh2, ha⟩ := autopop_shape r
  rw [ha] at h
  exact pxStep_ok_pxSafe { r with original_width := ow2, original_height := oh2 } _ h
